import Mathlib

/-!
Verification of `vali_utils/api/routes.py`: the query-dispatch/merge path
(`POST /query`), and the two aggregate statistics reads
(`GET /labels/{source}`, `GET /ages/{source}`).

The handlers are embedded as pure Lean functions.  Python exceptions are
modelled by `Except PyExc`; the outer `try/except Exception` of each handler
is the wrapper that maps any escaped exception to an HTTP 500 response, which
is exactly what `raise HTTPException(500, str(e))` does (FastAPI's
`HTTPException` derives from `Exception`, so it is caught by that clause too).
Nondeterministic inputs (the random choice, the remote call outcome, the
database succeeding or raising) are explicit parameters.
-/

/-- A peer of the network, as seen in the membership view (metagraph):
identifier, trust weight (the incentive value `I`), and a role flag
distinguishing validators (coordinators) from miners. -/
structure Peer where
  uid : Nat
  weight : Int
  isValidator : Bool
deriving DecidableEq, Repr

/-- Modelled from the spec: `utils.get_miner_uids(metagraph, uid)` (the
module `common/utils.py` is not part of the sources under review).  The spec
says it "returns the subset excluding coordinators and the caller itself".
Comment in `routes.py`: "This excludes validators and the current
validator's UID". -/
def getMinerUids (peers : List Peer) (callerUid : Nat) : List Nat :=
  (peers.filter (fun p => !p.isValidator && p.uid != callerUid)).map Peer.uid

/-- Modelled from the spec: `utils.is_miner(uid, metagraph)` (also from
`common/utils.py`): whether the uid belongs to a non-coordinator peer of the
membership view. -/
def isMiner (uid : Nat) (peers : List Peer) : Bool :=
  peers.any (fun p => p.uid == uid && !p.isValidator)

/-- Lines 33-37 of `routes.py`:
`sorted(miner_uids, key=lambda uid: validator.metagraph.I[uid], reverse=True)[:len(miner_uids) // 2]`.
Python's `sorted` with `reverse=True` is a stable sort under the reversed
key comparison, embedded as a stable sort with relation `I b <= I a`; the
slice `[:n // 2]` is `take (n / 2)` (Nat division rounds down, as Python
`//` does on non-negative lengths). -/
def qualifiedMiners (minerUids : List Nat) (I : Nat → Int) : List Nat :=
  (minerUids.insertionSort (fun a b => I b ≤ I a)).take (minerUids.length / 2)

/-- Python's `str.upper()` on the strings at hand: upper-case every
character. -/
def pyUpper (s : String) : String := String.mk (s.data.map Char.toUpper)

/-- Modelled from the spec: the `DataSource` enum of `common/data.py` is a
finite map from (upper-case) names to numeric identifiers; `DataSource[s]`
is lookup by exact key, raising `KeyError` when absent.  The handlers always
index it with `source.upper()`. -/
def lookupSource (enum : List (String × Nat)) (source : String) : Option Nat :=
  (enum.find? (fun p => p.1 == pyUpper source)).map Prod.snd

/-- An item of a peer's reply: an opaque record identified by its canonical
string form (`str(item)` in the code). -/
structure Item where
  canonical : String
deriving DecidableEq, Repr

/-- Lines 74-81 of `routes.py`: the nested loop
`for response in responses: for item in response: ...` visits the items of
`responses.flatten` in order, keeping an item exactly when its hash
`hash(str(item))` is not in the `seen` set, and adding that hash to `seen`.
`h` is Python's string hash, an opaque function here. -/
def dedupLoop (h : Item → Int) : List Item → List Int → List Item
  | [], _ => []
  | x :: xs, seen =>
    if h x ∈ seen then dedupLoop h xs seen
    else x :: dedupLoop h xs (h x :: seen)

/-- The merged data of `query_data` before truncation: `all_data` after the
loop of lines 74-81, starting from an empty `seen` set. -/
def mergeResponses (h : Item → Int) (responses : List (List Item)) : List Item :=
  dedupLoop h responses.flatten []

/-- The body of `POST /query` (`QueryRequest` of `.models`): source string,
filters, and the positive result limit. Only `source` and `limit` influence
the control flow of the handler. -/
structure QueryRequestM where
  source : String
  usernames : List String
  keywords : List String
  limit : Nat
deriving DecidableEq, Repr

/-- The `meta` object of a successful `/query` response (lines 86-91). -/
structure ResponseMeta where
  totalResponses : Nat
  uniqueItems : Nat
  minersQueried : Nat
  totalMiners : Nat
deriving DecidableEq, Repr

/-- A successful `/query` response (lines 83-92). -/
structure QueryResponseM where
  status : String
  data : List Item
  meta : ResponseMeta
deriving DecidableEq, Repr

/-- A Python exception escaping a handler body: FastAPI's `HTTPException`
(which derives from `Exception`), the `KeyError` of an enum lookup, the
`IndexError` of `random.choice` on an empty sequence, or a database error
raised by `execute`/`fetchall`. -/
inductive PyExc where
  | httpExc (status : Nat) (detail : String)
  | keyError (key : String)
  | indexError
  | dbError (msg : String)
deriving DecidableEq, Repr

/-- The `str(e)` used to build the detail of the final 500 response: for a
Starlette `HTTPException` this is `"{status_code}: {detail}"`; for the other
exceptions, their message. -/
def pyExcStr : PyExc → String
  | PyExc.httpExc status detail => Nat.repr status ++ ": " ++ detail
  | PyExc.keyError key => key
  | PyExc.indexError => "Cannot choose from an empty sequence"
  | PyExc.dbError msg => msg

/-- The outcome a handler produces for the HTTP layer: either a value
serialized with status 200, or an `HTTPException` carrying a status code. -/
inductive HandlerResult (α : Type) where
  | ok (value : α)
  | httpError (status : Nat) (detail : String)
deriving DecidableEq, Repr

/-- One remote invocation issued through the dendrite: the target uid and
the timeout passed to `dendrite.forward` (line 63: `timeout=30`). -/
structure Invocation where
  uid : Nat
  timeout : Nat
deriving DecidableEq, Repr

/-- The outcome of the single `dendrite.forward` call: a timeout/transport
exception, or a reply whose `data` field holds a list of items. -/
inductive CallOutcome where
  | error
  | success (data : List Item)
deriving DecidableEq, Repr

/-- Line 55: `uid = random.choice(miner_uids)`, with the random draw given
as an arbitrary number `r` reduced modulo the pool's length; `none` is the
`IndexError` that `random.choice` raises on an empty sequence. -/
def chosenUid (pool : List Nat) (r : Nat) : Option Nat :=
  match pool with
  | [] => none
  | u :: us => some ((u :: us).getD (r % (u :: us).length) u)

/-- Lines 56-68: the guarded single dispatch.  If `utils.is_miner(uid, …)`
holds, exactly one `dendrite.forward` call with `timeout=30` is issued; a
timeout or transport exception is logged and leaves `responses` untouched;
a reply is appended only when truthy with truthy `data` (line 65).  Returns
the invocations issued and the `responses` list. -/
def dispatchOne (peers : List Peer) (uid : Nat) (outcome : CallOutcome) :
    List Invocation × List (List Item) :=
  if isMiner uid peers then
    (([⟨uid, 30⟩] : List Invocation),
      match outcome with
      | CallOutcome.error => ([] : List (List Item))
      | CallOutcome.success d => if d.isEmpty then [] else [d])
  else ([], [])

/-- The `try` body of `query_data` (lines 28-92).  `r` is the random draw of
`random.choice`, `outcome` the remote call's result, `h` the string hash.
Returns the response together with the list of remote invocations issued. -/
def queryDataBody (peers : List Peer) (callerUid : Nat) (I : Nat → Int)
    (enum : List (String × Nat)) (req : QueryRequestM) (r : Nat)
    (outcome : CallOutcome) (h : Item → Int) :
    Except PyExc (QueryResponseM × List Invocation) :=
  let minerUids := getMinerUids peers callerUid
  let miners := qualifiedMiners minerUids I
  if miners.isEmpty then
    Except.error (PyExc.httpExc 503 "No miners available")
  else
    match lookupSource enum req.source with
    | none => Except.error (PyExc.keyError (pyUpper req.source))
    | some _sourceId =>
      match chosenUid minerUids r with
      | none => Except.error PyExc.indexError
      | some uid =>
        let dispatched := dispatchOne peers uid outcome
        let allData := mergeResponses h dispatched.2
        Except.ok
          ({ status := "success"
             data := allData.take req.limit
             meta := { totalResponses := dispatched.2.length
                       uniqueItems := allData.length
                       minersQueried := miners.length
                       totalMiners := minerUids.length } }, dispatched.1)

/-- The `query_data` handler: its `except Exception` clause (lines 94-96)
catches every exception of the body — `HTTPException(503)` of line 40 and
the `KeyError` of line 44 included — and re-raises `HTTPException(500,
str(e))`.  The second component is the list of remote invocations issued
(empty when the body failed, since every exception precedes the dispatch). -/
def query_data (peers : List Peer) (callerUid : Nat) (I : Nat → Int)
    (enum : List (String × Nat)) (req : QueryRequestM) (r : Nat)
    (outcome : CallOutcome) (h : Item → Int) :
    HandlerResult QueryResponseM × List Invocation :=
  match queryDataBody peers callerUid I enum req r outcome h with
  | Except.ok (resp, invs) => (HandlerResult.ok resp, invs)
  | Except.error e => (HandlerResult.httpError 500 (pyExcStr e), [])

/-- A row of the `APILabelSize` table of the statistics store: per
(source, label), the raw and trust-adjusted byte totals. -/
structure LabelRow where
  source : Nat
  labelValue : String
  contentSizeBytes : Int
  adjContentSizeBytes : Int
deriving DecidableEq, Repr

/-- The `LabelSize` response model of `GET /labels/{source}`. -/
structure LabelSize where
  label_value : String
  content_size_bytes : Int
  adj_content_size_bytes : Int
deriving DecidableEq, Repr

/-- A row of the `Miner` table: per miner, its credibility multiplier
(embedded as an exact rational). -/
structure MinerRow where
  minerId : Nat
  credibility : Rat
deriving DecidableEq, Repr

/-- A row of the `MinerIndex` table: a miner's declared content for a
(source, time bucket), with its size in bytes. -/
structure MinerIndexRow where
  minerId : Nat
  source : Nat
  timeBucketId : Nat
  contentSizeBytes : Int
deriving DecidableEq, Repr

/-- The `AgeSize` response model of `GET /ages/{source}`. -/
structure AgeSize where
  time_bucket_id : Nat
  content_size_bytes : Int
  adj_content_size_bytes : Rat
deriving DecidableEq, Repr

/-- The SQL of lines 127-135: `SELECT labelValue, contentSizeBytes,
adjContentSizeBytes FROM APILabelSize WHERE source = ? ORDER BY
adjContentSizeBytes DESC`: filter the table on the source, sort descending
by the adjusted size. -/
def apiLabelQuery (table : List LabelRow) (sourceId : Nat) : List LabelRow :=
  (table.filter (fun row => row.source == sourceId)).insertionSort
    (fun a b => b.adjContentSizeBytes ≤ a.adjContentSizeBytes)

/-- The `JOIN MinerIndex USING (minerId)` of line 177: pairs of a `Miner`
row and a `MinerIndex` row agreeing on `minerId`, in row order. -/
def minerJoin (miners : List MinerRow) (index : List MinerIndexRow) :
    List (MinerRow × MinerIndexRow) :=
  miners.flatMap (fun m =>
    (index.filter (fun i => i.minerId == m.minerId)).map (fun i => (m, i)))

/-- The distinct `timeBucketId` keys of the `GROUP BY` of line 179, in the
`ORDER BY timeBucketId DESC` order of line 180. -/
def ageBuckets (rows : List (MinerRow × MinerIndexRow)) : List Nat :=
  ((rows.map (fun p => p.2.timeBucketId)).dedup).insertionSort (fun a b => b ≤ a)

/-- The joined relation restricted to one source: the `WHERE source = ?` of
line 178 applied to the join. -/
def sourceRows (miners : List MinerRow) (index : List MinerIndexRow)
    (sourceId : Nat) : List (MinerRow × MinerIndexRow) :=
  (minerJoin miners index).filter (fun p => p.2.source == sourceId)

/-- The SQL of lines 171-181: join `Miner` with `MinerIndex` on `minerId`,
keep the given source, and per time bucket return `SUM(contentSizeBytes)`
and `SUM(contentSizeBytes * credibility)`, sorted descending by bucket id. -/
def ageQuery (miners : List MinerRow) (index : List MinerIndexRow)
    (sourceId : Nat) : List AgeSize :=
  (ageBuckets (sourceRows miners index sourceId)).map (fun b =>
    let brows := (sourceRows miners index sourceId).filter
      (fun p => p.2.timeBucketId == b)
    { time_bucket_id := b
      content_size_bytes := (brows.map (fun p => p.2.contentSizeBytes)).sum
      adj_content_size_bytes :=
        (brows.map (fun p => (p.2.contentSizeBytes : Rat) * p.1.credibility)).sum })

/-- The observable state of the statistics store: whether the process-wide
lock is held, and how many connections are open (created by
`_create_connection` and not yet closed). -/
structure StoreState where
  lockHeld : Bool
  openConns : Nat
deriving DecidableEq, Repr

/-- The `with validator.evaluator.storage.lock:` statement: the lock is
acquired on entry and released on exit, also when the body raises. -/
def withLock {α : Type} (body : StoreState → Except PyExc α × StoreState)
    (s : StoreState) : Except PyExc α × StoreState :=
  let out := body { s with lockHeld := true }
  (out.1, { out.2 with lockHeld := false })

/-- The locked block of `get_label_sizes` (lines 124-147): open a
connection, run the query (`dbOk` says whether `execute`/`fetchall`
succeed), build the records, and close the connection — but the `close` of
line 146 runs only on the success path; when the query raises, the
exception propagates with the connection still open. -/
def labelBody (table : List LabelRow) (sourceId : Nat) (dbOk : Bool)
    (s : StoreState) : Except PyExc (List LabelSize) × StoreState :=
  let s1 := { s with openConns := s.openConns + 1 }
  if dbOk then
    let labels := (apiLabelQuery table sourceId).map (fun row =>
      { label_value := row.labelValue
        content_size_bytes := row.contentSizeBytes
        adj_content_size_bytes := row.adjContentSizeBytes })
    (Except.ok labels, { s1 with openConns := s1.openConns - 1 })
  else
    (Except.error (PyExc.dbError "no such table: APILabelSize"), s1)

/-- The locked block of `get_age_sizes` (lines 167-192), with the same
connection discipline: `close` (line 191) runs only on success. -/
def ageBody (miners : List MinerRow) (index : List MinerIndexRow)
    (sourceId : Nat) (dbOk : Bool) (s : StoreState) :
    Except PyExc (List AgeSize) × StoreState :=
  let s1 := { s with openConns := s.openConns + 1 }
  if dbOk then
    (Except.ok (ageQuery miners index sourceId),
      { s1 with openConns := s1.openConns - 1 })
  else
    (Except.error (PyExc.dbError "no such table: MinerIndex"), s1)

/-- The `GET /labels/{source}` handler (lines 110-151): validate the source
(`KeyError` becomes `HTTPException(400)`), run the locked read; the outer
`except Exception` (lines 149-151) catches every exception — the 400
included — and re-raises `HTTPException(500, str(e))`. -/
def get_label_sizes (enum : List (String × Nat)) (table : List LabelRow)
    (source : String) (dbOk : Bool) (s : StoreState) :
    HandlerResult (List LabelSize) × StoreState :=
  let inner : Except PyExc (List LabelSize) × StoreState :=
    match lookupSource enum source with
    | none =>
      (Except.error (PyExc.httpExc 400 ("Invalid source: " ++ source)), s)
    | some sourceId => withLock (labelBody table sourceId dbOk) s
  match inner with
  | (Except.ok labels, s2) => (HandlerResult.ok labels, s2)
  | (Except.error e, s2) => (HandlerResult.httpError 500 (pyExcStr e), s2)

/-- The `GET /ages/{source}` handler (lines 154-194), with the same
structure: the `HTTPException(400)` of line 165 is caught by the outer
`except Exception` (lines 193-194) and re-raised as a 500. -/
def get_age_sizes (enum : List (String × Nat)) (miners : List MinerRow)
    (index : List MinerIndexRow) (source : String) (dbOk : Bool)
    (s : StoreState) : HandlerResult (List AgeSize) × StoreState :=
  let inner : Except PyExc (List AgeSize) × StoreState :=
    match lookupSource enum source with
    | none =>
      (Except.error (PyExc.httpExc 400 ("Invalid source: " ++ source)), s)
    | some sourceId => withLock (ageBody miners index sourceId dbOk) s
  match inner with
  | (Except.ok ages, s2) => (HandlerResult.ok ages, s2)
  | (Except.error e, s2) =>
    (HandlerResult.httpError 500 ("Error retrieving age sizes: " ++ pyExcStr e), s2)

/-- A concrete membership view: miners 5 and 7, a coordinator 0 (the spec's
scenario `peers = {5: weight 10, 7: weight 5}`). -/
def cPeers : List Peer := [⟨5, 10, false⟩, ⟨7, 5, false⟩, ⟨0, 100, true⟩]

/-- The trust weights of the scenario: uid 5 weighs 10, uid 7 weighs 5. -/
def cI : Nat → Int := fun u => if u = 5 then 10 else if u = 7 then 5 else 0

/-- A concrete source enum with the two recognized names. -/
def cEnum : List (String × Nat) := [("REDDIT", 1), ("X", 2)]

/-- A concrete well-formed request with limit 3. -/
def cReq : QueryRequestM :=
  { source := "reddit", usernames := [], keywords := [], limit := 3 }

/-- A request whose source names no recognized data source. -/
def cBadReq : QueryRequestM :=
  { source := "tiktok", usernames := [], keywords := [], limit := 3 }

/-- A concrete stand-in for Python's string hash: the length of the
canonical form. -/
def cHash : Item → Int := fun i => (i.canonical.length : Int)

/-- Four items of which two share an identical canonical form (the spec's
scenario). -/
def cItems : List Item := [⟨"aa"⟩, ⟨"b"⟩, ⟨"aa"⟩, ⟨"ccc"⟩]

/-- A concrete `APILabelSize` table. -/
def cTable : List LabelRow :=
  [⟨1, "news", 100, 50⟩, ⟨1, "sports", 10, 80⟩, ⟨2, "tech", 7, 7⟩]

/-- A concrete `Miner` table: miner 5 has credibility 1/2, miner 7 has 1. -/
def cMinersT : List MinerRow := [⟨5, (1 : Rat)/2⟩, ⟨7, 1⟩]

/-- A concrete `MinerIndex` table over two sources and buckets 3, 4 and 9. -/
def cIndexT : List MinerIndexRow :=
  [⟨5, 1, 3, 100⟩, ⟨7, 1, 3, 10⟩, ⟨5, 1, 4, 8⟩, ⟨7, 2, 9, 5⟩]

/-- When the qualified subset is nonempty, the source recognized and the
pool nonempty, the body of `query_data` reaches the dispatch and returns
the merged, truncated response built from the dispatch result. -/
theorem queryDataBody_run (peers : List Peer) (callerUid : Nat) (I : Nat → Int)
    (enum : List (String × Nat)) (req : QueryRequestM) (r : Nat)
    (outcome : CallOutcome) (h : Item → Int) (v : Nat) (uid : Nat)
    (hq : (qualifiedMiners (getMinerUids peers callerUid) I).isEmpty = false)
    (hsrc : lookupSource enum req.source = some v)
    (huid : chosenUid (getMinerUids peers callerUid) r = some uid) :
    queryDataBody peers callerUid I enum req r outcome h =
      Except.ok
        ({ status := "success"
           data := (mergeResponses h (dispatchOne peers uid outcome).2).take req.limit
           meta := { totalResponses := (dispatchOne peers uid outcome).2.length
                     uniqueItems := (mergeResponses h (dispatchOne peers uid outcome).2).length
                     minersQueried := (qualifiedMiners (getMinerUids peers callerUid) I).length
                     totalMiners := (getMinerUids peers callerUid).length } },
         (dispatchOne peers uid outcome).1) := by
  unfold queryDataBody
  simp only [hq, hsrc, huid, Bool.false_eq_true, if_false]

/-- The deduplication loop emits a sublist of the items it visits: arrival
order is preserved and nothing is invented. -/
theorem dedupLoop_sublist (h : Item → Int) :
    ∀ (xs : List Item) (seen : List Int), List.Sublist (dedupLoop h xs seen) xs
  | [], _ => List.Sublist.refl []
  | x :: xs, seen => by
    unfold dedupLoop
    by_cases hx : h x ∈ seen
    · rw [if_pos hx]
      exact (dedupLoop_sublist h xs seen).cons x
    · rw [if_neg hx]
      exact (dedupLoop_sublist h xs (h x :: seen)).cons₂ x

/-- No emitted item carries a hash that was already in the `seen` set. -/
theorem dedupLoop_hash_not_mem (h : Item → Int) :
    ∀ (xs : List Item) (seen : List Int) (a : Item),
      a ∈ dedupLoop h xs seen → h a ∉ seen
  | [], _, _, ha => by simp [dedupLoop] at ha
  | x :: xs, seen, a, ha => by
    unfold dedupLoop at ha
    by_cases hx : h x ∈ seen
    · rw [if_pos hx] at ha
      exact dedupLoop_hash_not_mem h xs seen a ha
    · rw [if_neg hx] at ha
      rcases List.mem_cons.mp ha with rfl | ha
      · exact hx
      · intro hmem
        exact dedupLoop_hash_not_mem h xs (h x :: seen) a ha
          (List.mem_cons_of_mem _ hmem)

/-- The emitted items have pairwise distinct hashes. -/
theorem dedupLoop_pairwise (h : Item → Int) :
    ∀ (xs : List Item) (seen : List Int),
      (dedupLoop h xs seen).Pairwise (fun a b => h a ≠ h b)
  | [], _ => by simp [dedupLoop]
  | x :: xs, seen => by
    unfold dedupLoop
    by_cases hx : h x ∈ seen
    · rw [if_pos hx]
      exact dedupLoop_pairwise h xs seen
    · rw [if_neg hx]
      refine List.Pairwise.cons (fun b hb => ?_) (dedupLoop_pairwise h xs (h x :: seen))
      intro hxb
      exact dedupLoop_hash_not_mem h xs (h x :: seen) b hb (hxb ▸ List.mem_cons_self _ _)

/-- Every visited item's hash is represented among the emitted items, unless
it was already in `seen`. -/
theorem dedupLoop_covers (h : Item → Int) :
    ∀ (xs : List Item) (seen : List Int) (a : Item), a ∈ xs →
      h a ∈ seen ∨ ∃ b ∈ dedupLoop h xs seen, h b = h a
  | [], _, _, ha => absurd ha (List.not_mem_nil _)
  | x :: xs, seen, a, ha => by
    unfold dedupLoop
    by_cases hx : h x ∈ seen
    · rw [if_pos hx]
      rcases List.mem_cons.mp ha with rfl | ha
      · exact Or.inl hx
      · exact dedupLoop_covers h xs seen a ha
    · rw [if_neg hx]
      rcases List.mem_cons.mp ha with rfl | ha
      · exact Or.inr ⟨a, List.mem_cons_self _ _, rfl⟩
      · rcases dedupLoop_covers h xs (h x :: seen) a ha with hseen | ⟨b, hb, hba⟩
        · rcases List.mem_cons.mp hseen with heq | hseen
          · exact Or.inr ⟨x, List.mem_cons_self _ _, heq.symm⟩
          · exact Or.inl hseen
        · exact Or.inr ⟨b, List.mem_cons_of_mem _ hb, hba⟩

/-- The first item bearing a given hash is kept: if nothing before `a`
shares its hash and the hash is not in `seen`, `a` itself is emitted. -/
theorem dedupLoop_first_kept (h : Item → Int) :
    ∀ (fst : List Item) (a : Item) (rest : List Item) (seen : List Int),
      (∀ b ∈ fst, h b ≠ h a) → h a ∉ seen →
      a ∈ dedupLoop h (fst ++ a :: rest) seen
  | [], a, rest, seen, _, hseen => by
    rw [List.nil_append]
    unfold dedupLoop
    rw [if_neg hseen]
    exact List.mem_cons_self _ _
  | b :: fst, a, rest, seen, hfst, hseen => by
    rw [List.cons_append]
    unfold dedupLoop
    by_cases hb : h b ∈ seen
    · rw [if_pos hb]
      exact dedupLoop_first_kept h fst a rest seen
        (fun c hc => hfst c (List.mem_cons_of_mem _ hc)) hseen
    · rw [if_neg hb]
      refine List.mem_cons_of_mem _ ?_
      refine dedupLoop_first_kept h fst a rest (h b :: seen)
        (fun c hc => hfst c (List.mem_cons_of_mem _ hc)) ?_
      intro hmem
      rcases List.mem_cons.mp hmem with heq | hmem
      · exact hfst b (List.mem_cons_self _ _) heq.symm
      · exact hseen hmem

/-- C4: the merged result flattens the collected payloads preserving arrival
order, keeps only the first occurrence of each content-identity hash, and —
after the truncation `all_data[:request.limit]` — no two returned items
share an identity hash and the returned length never exceeds the limit. -/
theorem merge_dedup_truncate (h : Item → Int) (responses : List (List Item))
    (limit : Nat) :
    List.Sublist (mergeResponses h responses) responses.flatten
    ∧ (mergeResponses h responses).Pairwise (fun a b => h a ≠ h b)
    ∧ (∀ a ∈ responses.flatten, ∃ b ∈ mergeResponses h responses, h b = h a)
    ∧ (∀ (fst : List Item) (a : Item) (rest : List Item),
        responses.flatten = fst ++ a :: rest →
        (∀ b ∈ fst, h b ≠ h a) → a ∈ mergeResponses h responses)
    ∧ ((mergeResponses h responses).take limit).Pairwise (fun a b => h a ≠ h b)
    ∧ ((mergeResponses h responses).take limit).length ≤ limit := by
  refine ⟨dedupLoop_sublist h _ [], dedupLoop_pairwise h _ [], ?_, ?_, ?_, ?_⟩
  · intro a ha
    rcases dedupLoop_covers h responses.flatten [] a ha with hseen | hex
    · simp at hseen
    · exact hex
  · intro fst a rest hsplit hfst
    show a ∈ dedupLoop h responses.flatten []
    rw [hsplit]
    exact dedupLoop_first_kept h fst a rest [] hfst (by simp)
  · exact (dedupLoop_pairwise h _ []).sublist (List.take_sublist _ _)
  · exact List.length_take_le _ _

/-- Witness for C4 on the spec's scenario: the peer returned four items of
which two share a canonical form; the item "b" (preceded only by a
different hash) is kept, and the truncation respects the limit 3. -/
theorem merge_dedup_truncate_witness :
    (⟨"b"⟩ : Item) ∈ mergeResponses cHash [[⟨"aa"⟩, ⟨"b"⟩], [⟨"aa"⟩, ⟨"ccc"⟩]]
    ∧ ((mergeResponses cHash [[⟨"aa"⟩, ⟨"b"⟩], [⟨"aa"⟩, ⟨"ccc"⟩]]).take 3).length ≤ 3 :=
  ⟨(merge_dedup_truncate cHash [[⟨"aa"⟩, ⟨"b"⟩], [⟨"aa"⟩, ⟨"ccc"⟩]] 3).2.2.2.1
      [⟨"aa"⟩] ⟨"b"⟩ [⟨"aa"⟩, ⟨"ccc"⟩] (by decide) (by decide),
   (merge_dedup_truncate cHash [[⟨"aa"⟩, ⟨"b"⟩], [⟨"aa"⟩, ⟨"ccc"⟩]] 3).2.2.2.2.2⟩

/-- C10: a `POST /query` whose source string names no recognized data source
is answered with HTTP 500, not 400: the `KeyError` of the enum lookup during
synapse construction (or, when the pool check fires first, the
`HTTPException` it raises) is caught by the handler's generic `except
Exception` branch and re-raised as an internal error. -/
theorem query_invalid_source_500 (peers : List Peer) (callerUid : Nat)
    (I : Nat → Int) (enum : List (String × Nat)) (req : QueryRequestM)
    (r : Nat) (outcome : CallOutcome) (h : Item → Int)
    (hbad : lookupSource enum req.source = none) :
    ∃ d, (query_data peers callerUid I enum req r outcome h).1
        = HandlerResult.httpError 500 d := by
  unfold query_data queryDataBody
  by_cases hq : (qualifiedMiners (getMinerUids peers callerUid) I).isEmpty = true
  · simp [hq]
  · simp [hq, hbad]

/-- Witness for C10: the request with source "tiktok" is answered 500. -/
theorem query_invalid_source_500_witness :
    lookupSource cEnum cBadReq.source = none
    ∧ ∃ d, (query_data cPeers 0 cI cEnum cBadReq 0 CallOutcome.error cHash).1
        = HandlerResult.httpError 500 d :=
  ⟨by decide,
   query_invalid_source_500 cPeers 0 cI cEnum cBadReq 0 CallOutcome.error cHash
     (by decide)⟩

/-- C1 (code bug): with an empty eligible pool the code means to answer 503
(line 40 raises `HTTPException(503, "No miners available")`), but the
`except Exception` clause of lines 94-96 catches that very exception and
re-raises `HTTPException(500, str(e))`: the caller observes HTTP 500 whose
detail merely quotes the intended 503. -/
theorem query_no_miners_returns_500 :
    query_data [⟨0, 100, true⟩, ⟨3, 4, false⟩] 3 cI cEnum cReq 0
        CallOutcome.error cHash
      = (HandlerResult.httpError 500 "503: No miners available", []) := by decide

/-- C2 (code bug): an unrecognized source makes both stats endpoints raise
`HTTPException(400, "Invalid source: …")` (lines 121 and 165), but the
outer `except Exception` of each handler catches it and re-raises a 500:
the caller observes HTTP 500, not 400.  The case-insensitive half of the
claim does hold: the lower-case spelling of a recognized name is accepted
and served with the sorted label records. -/
theorem stats_invalid_source_returns_500 :
    (get_label_sizes cEnum cTable "tiktok" true ⟨false, 0⟩).1
        = HandlerResult.httpError 500 "400: Invalid source: tiktok"
    ∧ (get_age_sizes cEnum cMinersT cIndexT "tiktok" true ⟨false, 0⟩).1
        = HandlerResult.httpError 500
            "Error retrieving age sizes: 400: Invalid source: tiktok"
    ∧ (get_label_sizes cEnum cTable "reddit" true ⟨false, 0⟩).1
        = HandlerResult.ok
            [⟨"sports", 10, 80⟩, ⟨"news", 100, 50⟩] := by decide

/-- Whatever the random draw, the chosen uid comes from the pool given to
`random.choice`. -/
theorem chosenUid_mem (pool : List Nat) (r : Nat) (uid : Nat)
    (h : chosenUid pool r = some uid) : uid ∈ pool := by
  cases pool with
  | nil => simp [chosenUid] at h
  | cons u us =>
    simp only [chosenUid, Option.some.injEq] at h
    subst h
    have hlt : r % (u :: us).length < (u :: us).length :=
      Nat.mod_lt _ (Nat.succ_pos _)
    rw [List.getD_eq_getElem?_getD, List.getElem?_eq_getElem hlt]
    exact List.getElem_mem hlt

/-- Drawing the index of a pool member selects exactly that member. -/
theorem chosenUid_indexOf (pool : List Nat) (u : Nat) (hu : u ∈ pool) :
    chosenUid pool (pool.indexOf u) = some u := by
  cases pool with
  | nil => simp at hu
  | cons a us =>
    have hlt : (a :: us).indexOf u < (a :: us).length :=
      List.indexOf_lt_length.mpr hu
    simp only [chosenUid, Option.some.injEq]
    rw [Nat.mod_eq_of_lt hlt, List.getD_eq_getElem?_getD,
      List.getElem?_eq_getElem hlt]
    simp only [Option.getD_some]
    exact List.getElem_indexOf hlt

/-- Every uid of the eligible pool passes the `is_miner` guard. -/
theorem isMiner_of_mem_pool (peers : List Peer) (callerUid : Nat) (u : Nat)
    (hu : u ∈ getMinerUids peers callerUid) : isMiner u peers = true := by
  simp only [getMinerUids, List.mem_map, List.mem_filter] at hu
  obtain ⟨p, ⟨hp, hpred⟩, rfl⟩ := hu
  rw [Bool.and_eq_true] at hpred
  simp only [isMiner, List.any_eq_true]
  exact ⟨p, hp, by simp [hpred.1]⟩

/-- C3: for every `/query` request at most one remote invocation is issued;
every invocation carries the fixed timeout 30 and targets a member of the
full eligible pool; and every member of the full pool — not only of the
top-half qualified subset — is the target under some random draw. -/
theorem query_single_dispatch_full_pool (peers : List Peer) (callerUid : Nat)
    (I : Nat → Int) (enum : List (String × Nat)) (req : QueryRequestM)
    (h : Item → Int) :
    (∀ (r : Nat) (outcome : CallOutcome),
        (query_data peers callerUid I enum req r outcome h).2.length ≤ 1
        ∧ ∀ inv ∈ (query_data peers callerUid I enum req r outcome h).2,
            inv.timeout = 30 ∧ inv.uid ∈ getMinerUids peers callerUid)
    ∧ ((qualifiedMiners (getMinerUids peers callerUid) I).isEmpty = false →
        (∃ v, lookupSource enum req.source = some v) →
        ∀ u ∈ getMinerUids peers callerUid, ∀ outcome : CallOutcome,
          (query_data peers callerUid I enum req
              ((getMinerUids peers callerUid).indexOf u) outcome h).2
            = [⟨u, 30⟩]) := by
  constructor
  · intro r outcome
    by_cases hq :
        (qualifiedMiners (getMinerUids peers callerUid) I).isEmpty = true
    · unfold query_data queryDataBody
      simp [hq]
    · rw [Bool.not_eq_true] at hq
      cases hsrc : lookupSource enum req.source with
      | none =>
        unfold query_data queryDataBody
        simp [hq, hsrc]
      | some v =>
        cases huid : chosenUid (getMinerUids peers callerUid) r with
        | none =>
          unfold query_data queryDataBody
          simp [hq, hsrc, huid]
        | some uid =>
          have hmem := chosenUid_mem _ r uid huid
          unfold query_data
          rw [queryDataBody_run peers callerUid I enum req r outcome h v uid
            hq hsrc huid]
          show (dispatchOne peers uid outcome).1.length ≤ 1
            ∧ ∀ inv ∈ (dispatchOne peers uid outcome).1,
                inv.timeout = 30 ∧ inv.uid ∈ getMinerUids peers callerUid
          unfold dispatchOne
          by_cases hm : isMiner uid peers = true
          · rw [if_pos hm]
            refine ⟨by simp, ?_⟩
            intro inv hinv
            rw [List.mem_singleton] at hinv
            subst hinv
            exact ⟨rfl, hmem⟩
          · simp [hm]
  · intro hq hv u hu outcome
    obtain ⟨v, hsrc⟩ := hv
    have huid := chosenUid_indexOf (getMinerUids peers callerUid) u hu
    unfold query_data
    rw [queryDataBody_run peers callerUid I enum req
      ((getMinerUids peers callerUid).indexOf u) outcome h v u hq hsrc huid]
    show (dispatchOne peers u outcome).1 = [⟨u, 30⟩]
    unfold dispatchOne
    rw [if_pos (isMiner_of_mem_pool peers callerUid u hu)]

/-- Witness for C3: uid 7 is in the eligible pool but not in the qualified
top half (which is just `[5]`), yet the draw of its index makes it the one
queried peer, with timeout 30. -/
theorem query_single_dispatch_full_pool_witness :
    (qualifiedMiners (getMinerUids cPeers 0) cI).isEmpty = false
    ∧ (7 : Nat) ∈ getMinerUids cPeers 0
    ∧ (7 : Nat) ∉ qualifiedMiners (getMinerUids cPeers 0) cI
    ∧ (query_data cPeers 0 cI cEnum cReq ((getMinerUids cPeers 0).indexOf 7)
        CallOutcome.error cHash).2 = [⟨7, 30⟩] :=
  ⟨by decide, by decide, by decide,
   (query_single_dispatch_full_pool cPeers 0 cI cEnum cReq cHash).2 (by decide)
     ⟨1, by decide⟩ 7 (by decide) CallOutcome.error⟩

/-- C9: a timeout or transport error of the one remote invocation is
absorbed at the dispatch boundary: it leaves the `responses` list empty, is
never surfaced to the caller, and the request still completes as a 200
response with status "success" and empty data. -/
theorem peer_failure_absorbed (peers : List Peer) (callerUid : Nat)
    (I : Nat → Int) (enum : List (String × Nat)) (req : QueryRequestM)
    (r : Nat) (h : Item → Int) (v : Nat)
    (hq : (qualifiedMiners (getMinerUids peers callerUid) I).isEmpty = false)
    (hsrc : lookupSource enum req.source = some v) :
    ∃ invs, query_data peers callerUid I enum req r CallOutcome.error h =
      (HandlerResult.ok
        { status := "success", data := [],
          meta := { totalResponses := 0, uniqueItems := 0,
                    minersQueried :=
                      (qualifiedMiners (getMinerUids peers callerUid) I).length,
                    totalMiners := (getMinerUids peers callerUid).length } },
       invs) := by
  cases hpool : getMinerUids peers callerUid with
  | nil =>
    rw [hpool] at hq
    simp [qualifiedMiners] at hq
  | cons u us =>
    obtain ⟨uid, huid⟩ :
        ∃ uid, chosenUid (getMinerUids peers callerUid) r = some uid := by
      rw [hpool]
      exact ⟨_, rfl⟩
    refine ⟨(dispatchOne peers uid CallOutcome.error).1, ?_⟩
    unfold query_data
    rw [queryDataBody_run peers callerUid I enum req r CallOutcome.error h v uid
      hq hsrc huid]
    have hresp : (dispatchOne peers uid CallOutcome.error).2 = [] := by
      unfold dispatchOne
      by_cases hm : isMiner uid peers = true <;> simp [hm]
    simp [hresp, mergeResponses, dedupLoop, hpool]

/-- Witness for C9: with the concrete peers and a recognized source, the
failed call yields a success response with empty data. -/
theorem peer_failure_absorbed_witness :
    (qualifiedMiners (getMinerUids cPeers 0) cI).isEmpty = false
    ∧ ∃ invs, query_data cPeers 0 cI cEnum cReq 0 CallOutcome.error cHash =
      (HandlerResult.ok
        { status := "success", data := [],
          meta := { totalResponses := 0, uniqueItems := 0,
                    minersQueried :=
                      (qualifiedMiners (getMinerUids cPeers 0) cI).length,
                    totalMiners := (getMinerUids cPeers 0).length } },
       invs) :=
  ⟨by decide,
   peer_failure_absorbed cPeers 0 cI cEnum cReq 0 cHash 1 (by decide) (by decide)⟩

/-- Inversion of a successful body run: the reported `miners_queried` is
the size of the qualified subset and `total_miners` the size of the full
pool. -/
theorem queryDataBody_ok_meta (peers : List Peer) (callerUid : Nat)
    (I : Nat → Int) (enum : List (String × Nat)) (req : QueryRequestM)
    (r : Nat) (outcome : CallOutcome) (h : Item → Int)
    (resp : QueryResponseM) (invs : List Invocation)
    (hbody : queryDataBody peers callerUid I enum req r outcome h
        = Except.ok (resp, invs)) :
    resp.meta.minersQueried
        = (qualifiedMiners (getMinerUids peers callerUid) I).length
    ∧ resp.meta.totalMiners = (getMinerUids peers callerUid).length := by
  unfold queryDataBody at hbody
  by_cases hq :
      (qualifiedMiners (getMinerUids peers callerUid) I).isEmpty = true
  · simp [hq] at hbody
  · rw [Bool.not_eq_true] at hq
    cases hsrc : lookupSource enum req.source with
    | none => simp [hq, hsrc] at hbody
    | some v =>
      cases huid : chosenUid (getMinerUids peers callerUid) r with
      | none => simp [hq, hsrc, huid] at hbody
      | some uid =>
        simp only [hq, hsrc, huid, Bool.false_eq_true, if_false,
          Except.ok.injEq, Prod.mk.injEq] at hbody
        obtain ⟨hresp, _⟩ := hbody
        rw [← hresp]
        exact ⟨rfl, rfl⟩

/-- C5: the qualified peer set is the eligible pool (coordinators and the
caller excluded) sorted descending by trust weight and truncated to its top
half under floor division: it has exactly `n / 2` members, is sorted
descending, draws from the pool, dominates the discarded bottom half, and
its size is what every successful response reports as `miners_queried`
(with the pool's size as `total_miners`). -/
theorem qualified_top_half (peers : List Peer) (callerUid : Nat)
    (I : Nat → Int) (enum : List (String × Nat)) (req : QueryRequestM)
    (r : Nat) (outcome : CallOutcome) (h : Item → Int) :
    (qualifiedMiners (getMinerUids peers callerUid) I).length
        = (getMinerUids peers callerUid).length / 2
    ∧ (qualifiedMiners (getMinerUids peers callerUid) I).Pairwise
        (fun a b => I b ≤ I a)
    ∧ (∀ a ∈ qualifiedMiners (getMinerUids peers callerUid) I,
        a ∈ getMinerUids peers callerUid)
    ∧ (∀ a ∈ qualifiedMiners (getMinerUids peers callerUid) I,
        ∀ b ∈ ((getMinerUids peers callerUid).insertionSort
              (fun a b => I b ≤ I a)).drop
            ((getMinerUids peers callerUid).length / 2),
          I b ≤ I a)
    ∧ (∀ (resp : QueryResponseM) (invs : List Invocation),
        query_data peers callerUid I enum req r outcome h
            = (HandlerResult.ok resp, invs) →
        resp.meta.minersQueried
            = (qualifiedMiners (getMinerUids peers callerUid) I).length
        ∧ resp.meta.totalMiners = (getMinerUids peers callerUid).length) := by
  have hsorted :
      ((getMinerUids peers callerUid).insertionSort
          (fun a b => I b ≤ I a)).Pairwise (fun a b => I b ≤ I a) := by
    letI : IsTotal Nat (fun a b => I b ≤ I a) :=
      ⟨fun a b => le_total (I b) (I a)⟩
    letI : IsTrans Nat (fun a b => I b ≤ I a) :=
      ⟨fun a b c hab hbc => le_trans hbc hab⟩
    exact List.sorted_insertionSort (fun a b => I b ≤ I a) _
  refine ⟨?_, ?_, ?_, ?_, ?_⟩
  · rw [qualifiedMiners, List.length_take,
      List.length_insertionSort (fun a b => I b ≤ I a)]
    exact Nat.min_eq_left (Nat.div_le_self _ _)
  · exact hsorted.sublist (List.take_sublist _ _)
  · intro a ha
    have := List.take_subset _ _ ha
    rw [List.mem_insertionSort] at this
    exact this
  · intro a ha b hb
    have hsplit := List.take_append_drop
      ((getMinerUids peers callerUid).length / 2)
      ((getMinerUids peers callerUid).insertionSort (fun a b => I b ≤ I a))
    rw [← hsplit] at hsorted
    exact (List.pairwise_append.mp hsorted).2.2 a ha b hb
  · intro resp invs heq
    unfold query_data at heq
    cases hbody : queryDataBody peers callerUid I enum req r outcome h with
    | error e =>
      rw [hbody] at heq
      simp at heq
    | ok val =>
      rw [hbody] at heq
      obtain ⟨resp2, invs2⟩ := val
      simp only [HandlerResult.ok.injEq, Prod.mk.injEq] at heq
      obtain ⟨hresp, hinvs⟩ := heq
      subst hresp
      exact queryDataBody_ok_meta peers callerUid I enum req r outcome h
        resp2 invs2 hbody

/-- Witness for C5, on the spec's scenario: pool `[5, 7]`, qualified half
`[5]`, reported `miners_queried = 1` and `total_miners = 2`. -/
theorem qualified_top_half_witness :
    qualifiedMiners (getMinerUids cPeers 0) cI = [5]
    ∧ (query_data cPeers 0 cI cEnum cReq 0 (CallOutcome.success cItems) cHash).1
        = HandlerResult.ok
          { status := "success", data := [⟨"aa"⟩, ⟨"b"⟩, ⟨"ccc"⟩],
            meta := { totalResponses := 1, uniqueItems := 3,
                      minersQueried := 1, totalMiners := 2 } }
    ∧ ∀ (resp : QueryResponseM) (invs : List Invocation),
        query_data cPeers 0 cI cEnum cReq 0 (CallOutcome.success cItems) cHash
            = (HandlerResult.ok resp, invs) →
        resp.meta.minersQueried
            = (qualifiedMiners (getMinerUids cPeers 0) cI).length
        ∧ resp.meta.totalMiners = (getMinerUids cPeers 0).length :=
  ⟨by decide, by decide,
   (qualified_top_half cPeers 0 cI cEnum cReq 0 (CallOutcome.success cItems)
      cHash).2.2.2.2⟩

/-- C6: for a recognized source the labels endpoint returns 200 with one
record per label (under the table's per-(source, label) keying), each
record carrying the raw and trust-adjusted byte totals of a table row of
that source, and the list is sorted descending by adjusted size. -/
theorem label_sizes_sorted (enum : List (String × Nat)) (table : List LabelRow)
    (source : String) (s : StoreState) (v : Nat)
    (hsrc : lookupSource enum source = some v)
    (hkey : ((table.filter (fun row => row.source == v)).map
        (fun row => row.labelValue)).Nodup) :
    ∃ out s2, get_label_sizes enum table source true s
        = (HandlerResult.ok out, s2)
      ∧ out.Pairwise
          (fun a b => b.adj_content_size_bytes ≤ a.adj_content_size_bytes)
      ∧ (out.map (fun rec => rec.label_value)).Nodup
      ∧ ∀ rec ∈ out,
          ({ source := v, labelValue := rec.label_value,
             contentSizeBytes := rec.content_size_bytes,
             adjContentSizeBytes := rec.adj_content_size_bytes } : LabelRow)
            ∈ table := by
  refine ⟨(apiLabelQuery table v).map (fun row =>
      { label_value := row.labelValue
        content_size_bytes := row.contentSizeBytes
        adj_content_size_bytes := row.adjContentSizeBytes }),
    { lockHeld := false, openConns := s.openConns + 1 - 1 }, ?_, ?_, ?_, ?_⟩
  · simp only [get_label_sizes, hsrc, withLock, labelBody, if_pos]
  · rw [List.pairwise_map]
    have : (apiLabelQuery table v).Pairwise
        (fun a b => b.adjContentSizeBytes ≤ a.adjContentSizeBytes) := by
      letI : IsTotal LabelRow
          (fun a b => b.adjContentSizeBytes ≤ a.adjContentSizeBytes) :=
        ⟨fun a b => le_total b.adjContentSizeBytes a.adjContentSizeBytes⟩
      letI : IsTrans LabelRow
          (fun a b => b.adjContentSizeBytes ≤ a.adjContentSizeBytes) :=
        ⟨fun a b c hab hbc => le_trans hbc hab⟩
      exact List.sorted_insertionSort _ _
    exact this
  · rw [List.map_map]
    have hperm : List.Perm (apiLabelQuery table v)
        (table.filter (fun row => row.source == v)) :=
      List.perm_insertionSort _ _
    have := (hperm.map (fun row => row.labelValue)).nodup_iff.mpr hkey
    exact this
  · intro rec hrec
    simp only [List.mem_map] at hrec
    obtain ⟨row, hrow, rfl⟩ := hrec
    rw [apiLabelQuery, List.mem_insertionSort, List.mem_filter] at hrow
    obtain ⟨hmem, hsrceq⟩ := hrow
    rw [beq_iff_eq] at hsrceq
    rw [← hsrceq]
    exact hmem

/-- Witness for C6: the REDDIT rows of the concrete table are served sorted
by adjusted size. -/
theorem label_sizes_sorted_witness :
    lookupSource cEnum "REDDIT" = some 1
    ∧ ((cTable.filter (fun row => row.source == 1)).map
        (fun row => row.labelValue)).Nodup
    ∧ ∃ out s2, get_label_sizes cEnum cTable "REDDIT" true ⟨false, 0⟩
        = (HandlerResult.ok out, s2)
      ∧ out.Pairwise
          (fun a b => b.adj_content_size_bytes ≤ a.adj_content_size_bytes)
      ∧ (out.map (fun rec => rec.label_value)).Nodup
      ∧ ∀ rec ∈ out,
          ({ source := 1, labelValue := rec.label_value,
             contentSizeBytes := rec.content_size_bytes,
             adjContentSizeBytes := rec.adj_content_size_bytes } : LabelRow)
            ∈ cTable :=
  ⟨by decide, by decide,
   label_sizes_sorted cEnum cTable "REDDIT" ⟨false, 0⟩ 1 (by decide) (by decide)⟩

/-- C7: for a recognized source the ages endpoint returns 200 with one
record per time bucket of the source-restricted joined peer/peer-index
relation; each record's raw size is the sum of the contributing
`contentSizeBytes` and its trust-weighted size the sum of
`contentSizeBytes * credibility` over the same contributing join rows, and
the list is sorted descending by bucket id. -/
theorem age_sizes_sorted_aggregated (enum : List (String × Nat))
    (miners : List MinerRow) (index : List MinerIndexRow) (source : String)
    (s : StoreState) (v : Nat)
    (hsrc : lookupSource enum source = some v) :
    ∃ out s2, get_age_sizes enum miners index source true s
        = (HandlerResult.ok out, s2)
      ∧ out.Pairwise (fun a b => b.time_bucket_id ≤ a.time_bucket_id)
      ∧ (out.map (fun rec => rec.time_bucket_id)).Nodup
      ∧ ∀ rec ∈ out,
          rec.time_bucket_id
              ∈ (sourceRows miners index v).map (fun p => p.2.timeBucketId)
          ∧ rec.content_size_bytes
              = (((sourceRows miners index v).filter
                    (fun p => p.2.timeBucketId == rec.time_bucket_id)).map
                  (fun p => p.2.contentSizeBytes)).sum
          ∧ rec.adj_content_size_bytes
              = (((sourceRows miners index v).filter
                    (fun p => p.2.timeBucketId == rec.time_bucket_id)).map
                  (fun p => (p.2.contentSizeBytes : Rat) * p.1.credibility)).sum := by
  have hbsorted : (ageBuckets (sourceRows miners index v)).Pairwise
      (fun a b => b ≤ a) := by
    letI : IsTotal Nat (fun a b : Nat => b ≤ a) := ⟨fun a b => le_total b a⟩
    letI : IsTrans Nat (fun a b : Nat => b ≤ a) :=
      ⟨fun a b c hab hbc => le_trans hbc hab⟩
    exact List.sorted_insertionSort _ _
  have hbnodup : (ageBuckets (sourceRows miners index v)).Nodup :=
    (List.perm_insertionSort _ _).nodup_iff.mpr (List.nodup_dedup _)
  refine ⟨ageQuery miners index v,
    { lockHeld := false, openConns := s.openConns + 1 - 1 }, ?_, ?_, ?_, ?_⟩
  · simp only [get_age_sizes, hsrc, withLock, ageBody, if_pos]
  · rw [ageQuery, List.pairwise_map]
    exact hbsorted
  · have hmapid : (ageQuery miners index v).map (fun rec => rec.time_bucket_id)
        = ageBuckets (sourceRows miners index v) := by
      rw [ageQuery, List.map_map]
      exact List.map_id' _
    rw [hmapid]
    exact hbnodup
  · intro rec hrec
    rw [ageQuery, List.mem_map] at hrec
    obtain ⟨b, hb, rfl⟩ := hrec
    have hbmem : b ∈ (sourceRows miners index v).map
        (fun p => p.2.timeBucketId) := by
      have := List.mem_insertionSort
        (r := fun a b : Nat => b ≤ a) (l := ((sourceRows miners index v).map
          (fun p => p.2.timeBucketId)).dedup) |>.mp hb
      exact (List.mem_dedup).mp this
    exact ⟨hbmem, rfl, rfl⟩

/-- Witness for C7 on the concrete tables (source 1 has buckets 3 and 4
with mixed credibilities). -/
theorem age_sizes_sorted_aggregated_witness :
    lookupSource cEnum "reddit" = some 1
    ∧ ∃ out s2, get_age_sizes cEnum cMinersT cIndexT "reddit" true ⟨false, 0⟩
        = (HandlerResult.ok out, s2)
      ∧ out.Pairwise (fun a b => b.time_bucket_id ≤ a.time_bucket_id)
      ∧ (out.map (fun rec => rec.time_bucket_id)).Nodup
      ∧ ∀ rec ∈ out,
          rec.time_bucket_id
              ∈ (sourceRows cMinersT cIndexT 1).map (fun p => p.2.timeBucketId)
          ∧ rec.content_size_bytes
              = (((sourceRows cMinersT cIndexT 1).filter
                    (fun p => p.2.timeBucketId == rec.time_bucket_id)).map
                  (fun p => p.2.contentSizeBytes)).sum
          ∧ rec.adj_content_size_bytes
              = (((sourceRows cMinersT cIndexT 1).filter
                    (fun p => p.2.timeBucketId == rec.time_bucket_id)).map
                  (fun p => (p.2.contentSizeBytes : Rat) * p.1.credibility)).sum :=
  ⟨by decide,
   age_sizes_sorted_aggregated cEnum cMinersT cIndexT "reddit" ⟨false, 0⟩ 1
     (by decide)⟩

/-- Counterexample to C8: a label read whose `execute`/`fetchall` raises.
The `with` statement does release the lock, and the handler answers 500,
but the connection opened by `_create_connection` (line 124) is never
closed — `connection.close()` (line 146) sits on the success path only, so
after the call one more connection is open than before, falsifying
"the underlying store connection is closed unconditionally". -/
theorem stats_conn_left_open :
    (get_label_sizes cEnum cTable "REDDIT" false { lockHeld := false, openConns := 0 }).2
      = { lockHeld := false, openConns := 1 }
    ∧ (get_label_sizes cEnum cTable "REDDIT" false { lockHeld := false, openConns := 0 }).1
      = HandlerResult.httpError 500 "no such table: APILabelSize" := by decide

/-- C8 as amended: for both stats operations the process-wide guard is
acquired around the read-and-fetch sequence and released unconditionally
before returning; the store connection is closed before returning on the
success path, but when the read fails the connection opened for it is left
open (one more open connection than before). -/
theorem stats_lock_released (enum : List (String × Nat))
    (table : List LabelRow) (miners : List MinerRow)
    (index : List MinerIndexRow) (source : String) (dbOk : Bool)
    (s : StoreState) (hs : s.lockHeld = false) :
    ((get_label_sizes enum table source dbOk s).2.lockHeld = false
      ∧ (get_age_sizes enum miners index source dbOk s).2.lockHeld = false)
    ∧ (dbOk = true →
        (get_label_sizes enum table source dbOk s).2.openConns = s.openConns
        ∧ (get_age_sizes enum miners index source dbOk s).2.openConns
            = s.openConns)
    ∧ (dbOk = false → (∃ v, lookupSource enum source = some v) →
        (get_label_sizes enum table source dbOk s).2.openConns
            = s.openConns + 1
        ∧ (get_age_sizes enum miners index source dbOk s).2.openConns
            = s.openConns + 1) := by
  cases hsrc : lookupSource enum source with
  | none =>
    refine ⟨⟨?_, ?_⟩, ?_, ?_⟩
    · simp [get_label_sizes, hsrc, hs]
    · simp [get_age_sizes, hsrc, hs]
    · intro hdb
      constructor <;> simp [get_label_sizes, get_age_sizes, hsrc]
    · intro _ hv
      obtain ⟨v, hv⟩ := hv
      simp at hv
  | some v =>
    cases dbOk with
    | true =>
      refine ⟨⟨?_, ?_⟩, ?_, ?_⟩
      · simp [get_label_sizes, hsrc, withLock, labelBody]
      · simp [get_age_sizes, hsrc, withLock, ageBody]
      · intro _
        constructor
        · simp [get_label_sizes, hsrc, withLock, labelBody]
        · simp [get_age_sizes, hsrc, withLock, ageBody]
      · intro hfalse
        cases hfalse
    | false =>
      refine ⟨⟨?_, ?_⟩, ?_, ?_⟩
      · simp [get_label_sizes, hsrc, withLock, labelBody]
      · simp [get_age_sizes, hsrc, withLock, ageBody]
      · intro htrue
        cases htrue
      · intro _ _
        constructor
        · simp [get_label_sizes, hsrc, withLock, labelBody]
        · simp [get_age_sizes, hsrc, withLock, ageBody]

/-- Witness for the amended C8: a successful and a failing concrete read,
lock released in both, connection count restored only on success. -/
theorem stats_lock_released_witness :
    ((⟨false, 2⟩ : StoreState).lockHeld = false)
    ∧ (get_label_sizes cEnum cTable "REDDIT" true ⟨false, 2⟩).2.lockHeld = false
    ∧ (get_label_sizes cEnum cTable "REDDIT" true ⟨false, 2⟩).2.openConns = 2
    ∧ (get_age_sizes cEnum cMinersT cIndexT "REDDIT" false ⟨false, 2⟩).2.openConns = 3 :=
  ⟨rfl,
   (stats_lock_released cEnum cTable cMinersT cIndexT "REDDIT" true ⟨false, 2⟩
      rfl).1.1,
   ((stats_lock_released cEnum cTable cMinersT cIndexT "REDDIT" true ⟨false, 2⟩
      rfl).2.1 rfl).1,
   ((stats_lock_released cEnum cTable cMinersT cIndexT "REDDIT" false ⟨false, 2⟩
      rfl).2.2 rfl ⟨1, by decide⟩).2⟩
